import Mathlib

/-
Verification of the ella-to/sqlite access layer against its specification.

The Go source is shallowly embedded: Go strings become `List Char` (Go
strings are byte sequences; all inputs of interest here are ASCII, where
bytewise and codepoint-wise comparison agree), machine integers become
`Nat`/`Int` with explicit reinterpretation where Go converts between
widths, fallible operations return `Except`/`Option`, and stateful code
is explicit state passing.  Each definition carries a comment naming the
Go function it embeds.
-/

namespace EllaSqlite

/-- GoStr models a Go string as its list of characters. -/
abbrev GoStr := List Char

/-- GoError models the sentinel errors of database.go (ErrPrepareSQL,
ErrExecSQL, ErrUnknownType), the "connection has already warmed up"
error of Conn.Warmup, the error returned by a pool Take on a closed
pool, and generic I/O errors of the filesystem collaborator. -/
inductive GoError where
  | prepareFailed
  | execFailed
  | unknownType
  | alreadyWarmedUp
  | poolClosed
  | ioErr (msg : GoStr)
  deriving DecidableEq, Repr

/-- GoValue models the dynamic type and payload of one `any` parameter
given to Conn.Prepare.  Each constructor is one of the disjoint dynamic
shapes the binder in conn.go distinguishes: nil, `[]byte` (or
`json.RawMessage`), a non-byte slice or a map (carried with the JSON
text its encoding produces), string, signed integer (the `int64`
returned by `reflect.Value.Int`), unsigned integer (the `uint64`
returned by `reflect.Value.Uint`), float (carried as its IEEE bit
pattern, which no claim inspects), bool, `time.Time` (carried as its
`Unix()` seconds), a non-time `fmt.Stringer` (carried as its rendered
string), a plain struct or pointer to struct that is neither a
`time.Time` nor a `fmt.Stringer` (carried with its JSON encoding so the
intended rule 10 can be stated), and channel/function values. -/
inductive GoValue where
  | goNil
  | goBytes (b : List Nat)
  | goSliceJson (json : GoStr)
  | goMapJson (json : GoStr)
  | goString (s : GoStr)
  | goInt (i : Int)
  | goUint (u : Nat)
  | goFloat (bits : Nat)
  | goBool (b : Bool)
  | goTime (unixSec : Int)
  | goStringer (s : GoStr)
  | goStructVal (json : GoStr)
  | goPtrStructVal (json : GoStr)
  | goChan
  | goFunc
  deriving DecidableEq, Repr

/-- BindOp models one call on the engine statement handle
(`stmt.BindNull`, `BindZeroBlob`, `BindBytes`, `BindText`, `BindInt64`,
`BindFloat`, `BindBool`). -/
inductive BindOp where
  | bindNull
  | bindZeroBlob (len : Nat)
  | bindBytes (b : List Nat)
  | bindText (s : GoStr)
  | bindInt64 (i : Int)
  | bindFloat (bits : Nat)
  | bindBool (b : Bool)
  deriving DecidableEq, Repr

/-- goUintToInt64 embeds the Go conversion `int64(u)` for a `uint64`
operand as used in conn.go's `stmt.BindInt64(i, int64(reflect.ValueOf(value).Uint()))`:
the value modulo 2^64 reinterpreted as a signed two's-complement 64-bit
integer. -/
def goUintToInt64 (u : Nat) : Int :=
  if u % 2 ^ 64 < 2 ^ 63 then ((u % 2 ^ 64 : Nat) : Int)
  else ((u % 2 ^ 64 : Nat) : Int) - 2 ^ 64

/-- bindValue embeds the per-parameter dispatch of the binding loop in
Conn.Prepare (conn.go).  The match arms are in the source's dispatch
order: the nil check, then the `reflect.Kind` switch (byte slice,
other slice / map via `json.NewEncoder(...).Encode` which appends a
trailing newline, string, signed ints, unsigned ints, floats, bool),
then the type switch (`time.Time`, `fmt.Stringer`, default →
ErrUnknownType).  It returns the engine bind calls made for this one
value, or the error. -/
def bindValue : GoValue → Except GoError (List BindOp)
  | .goNil => .ok [.bindNull]
  | .goBytes b => .ok [.bindZeroBlob b.length, .bindBytes b]
  | .goSliceJson j => .ok [.bindText (j ++ ['\n'])]
  | .goMapJson j => .ok [.bindText (j ++ ['\n'])]
  | .goString s => .ok [.bindText s]
  | .goInt i => .ok [.bindInt64 i]
  | .goUint u => .ok [.bindInt64 (goUintToInt64 u)]
  | .goFloat bits => .ok [.bindFloat bits]
  | .goBool b => .ok [.bindBool b]
  | .goTime t => .ok [.bindInt64 t]
  | .goStringer s => .ok [.bindText s]
  | .goStructVal _ => .error .unknownType
  | .goPtrStructVal _ => .error .unknownType
  | .goChan => .error .unknownType
  | .goFunc => .error .unknownType

/-- matchesNoRule is true for exactly the dynamic shapes for which the
binding loop in conn.go reaches its `default:` arm: channels, function
values, and plain (pointer-to-) struct values that are neither
`time.Time` nor `fmt.Stringer`. -/
def matchesNoRule : GoValue → Bool
  | .goStructVal _ => true
  | .goPtrStructVal _ => true
  | .goChan => true
  | .goFunc => true
  | _ => false

/-- bindLoop embeds the `for i, value := range values` loop of
Conn.Prepare: parameters are bound at positions starting from `i`
(the source starts at 1), stopping at the first value whose dispatch
fails.  The result pairs the engine bind calls actually performed
(tagged with their positions) with the first error, if any. -/
def bindLoop : Nat → List GoValue → List (Nat × BindOp) × Option GoError
  | _, [] => ([], none)
  | i, v :: rest =>
      match bindValue v with
      | .error e => ([], some e)
      | .ok ops =>
          let t := bindLoop (i + 1) rest
          (ops.map (fun op => (i, op)) ++ t.1, t.2)

/-- prepareBinds runs the binding loop of Conn.Prepare from position 1,
as the source does (`i++ // bind starts from 1`). -/
def prepareBinds (values : List GoValue) : List (Nat × BindOp) × Option GoError :=
  bindLoop 1 values

/-- placeholdersAux embeds the `placeholders` helper of helper.go: it
appends to the string builder one "?" per iteration, preceded by ", "
for every iteration after the first. -/
def placeholdersAux (count : Nat) (sb : String) : String :=
  (List.range count).foldl (fun sb i => sb ++ (if i > 0 then ", " else "") ++ "?") sb

/-- Placeholders embeds `Placeholders` of helper.go.  The Go parameter
is a signed int whose loop runs zero times for negative counts, so the
`Nat` domain covers every behaviour the claims mention. -/
def Placeholders (count : Nat) : String :=
  placeholdersAux count ""

/-- GroupPlaceholdersStringBuilder embeds the helper of the same name in
helper.go: one parenthesized `placeholders numCols` group per row,
groups after the first preceded by ", ". -/
def GroupPlaceholdersStringBuilder (numRows numCols : Nat) (sb : String) : String :=
  (List.range numRows).foldl
    (fun sb i => placeholdersAux numCols (sb ++ (if i > 0 then ", " else "") ++ "(") ++ ")") sb

/-- GroupPlaceholders embeds `GroupPlaceholders` of helper.go. -/
def GroupPlaceholders (numRows numCols : Nat) : String :=
  GroupPlaceholdersStringBuilder numRows numCols ""

/-- lexLe embeds Go's built-in string comparison `a < b || a == b`
(bytewise lexicographic), used by `sort.Strings` / `sort.Slice` in
migration.go and database.go. -/
def lexLe : GoStr → GoStr → Bool
  | [], _ => true
  | _ :: _, [] => false
  | a :: as, b :: bs => if a < b then true else if b < a then false else lexLe as bs

/-- strLe is the propositional form of lexLe. -/
abbrev strLe (a b : GoStr) : Prop := lexLe a b = true

theorem lexLe_total : ∀ a b : GoStr, lexLe a b = true ∨ lexLe b a = true := by
  intro a
  induction a with
  | nil => intro b; left; cases b <;> simp [lexLe]
  | cons x xs ih =>
    intro b
    cases b with
    | nil => right; simp [lexLe]
    | cons y ys =>
      simp only [lexLe]
      rcases lt_trichotomy x y with h | h | h
      · left; simp [h]
      · subst h
        simp only [lt_irrefl, if_false]
        exact ih ys
      · right
        simp [h, asymm h]

theorem lexLe_trans : ∀ a b c : GoStr,
    lexLe a b = true → lexLe b c = true → lexLe a c = true := by
  intro a
  induction a with
  | nil => intro b c _ _; simp [lexLe]
  | cons x xs ih =>
    intro b c hab hbc
    cases b with
    | nil => simp [lexLe] at hab
    | cons y ys =>
      cases c with
      | nil => simp [lexLe] at hbc
      | cons z zs =>
        simp only [lexLe] at hab hbc ⊢
        rcases lt_trichotomy x y with hxy | hxy | hxy
        · rcases lt_trichotomy y z with hyz | hyz | hyz
          · simp [lt_trans hxy hyz]
          · subst hyz; simp [hxy]
          · simp [hyz, asymm hyz] at hbc
        · subst hxy
          rcases lt_trichotomy x z with hxz | hxz | hxz
          · simp [hxz]
          · subst hxz
            simp only [lt_irrefl, if_false] at hab hbc ⊢
            exact ih _ _ hab hbc
          · simp [hxz, asymm hxz] at hbc
        · simp [hxy, asymm hxy] at hab

instance : IsTotal GoStr strLe := ⟨lexLe_total⟩

instance : IsTrans GoStr strLe := ⟨lexLe_trans⟩

/-- sortStrings embeds `sort.Strings` / the lexicographic `sort.Slice`
call: it produces the input list sorted in nondecreasing bytewise
lexicographic order (insertion sort computes the same sorted list as
the source's sort, since the order is total). -/
def sortStrings (l : List GoStr) : List GoStr := List.insertionSort strLe l

/-- extFrom returns the suffix of a name starting at its final dot, or
the empty list if the name has no dot.  This embeds `filepath.Ext` as
applied in migration.go to `file.Name()`, which contains no path
separator. -/
def extFrom : GoStr → GoStr
  | [] => []
  | c :: rest =>
      let r := extFrom rest
      if r = [] then (if c = '.' then c :: rest else []) else r

/-- joinPath embeds `filepath.Join(dir, name)` for a clean directory
and a plain file name: the directory, a separator, and the name. -/
def joinPath (dir name : GoStr) : GoStr := dir ++ '/' :: name

/-- GoDirEntry models one `fs.DirEntry` returned by ReadDir: its name
and whether it is a directory. -/
structure GoDirEntry where
  name : GoStr
  isDir : Bool
  deriving DecidableEq, Repr

/-- MigFS models the `ReadDirFileFS` collaborator of migration.go: the
outcome of `ReadDir(dir)` for the one directory the sequencer reads,
and `ReadFile` on joined paths. -/
structure MigFS where
  entries : Except GoError (List GoDirEntry)
  readFile : GoStr → Except GoError GoStr

/-- sqlExt is the recognized script extension ".sql". -/
def sqlExt : GoStr := ['.', 's', 'q', 'l']

/-- keepEntry is the filter of the collection loop in Migration:
directories are skipped, as is every file whose `filepath.Ext` is not
".sql". -/
def keepEntry (f : GoDirEntry) : Bool :=
  !f.isDir && (extFrom f.name == sqlExt)

/-- migrationFiles embeds the first half of Migration (migration.go):
read the directory, keep non-directory entries with extension ".sql",
join each name onto the directory, and sort lexicographically. -/
def migrationFiles (fs : MigFS) (dir : GoStr) : Except GoError (List GoStr) :=
  match fs.entries with
  | .error e => .error e
  | .ok files =>
      .ok (sortStrings ((files.filter keepEntry).map (fun f => joinPath dir f.name)))

/-- runSqlFiles embeds the second half of Migration: for each file in
order, read it (returning the read error immediately on failure) and
execute its content through the engine (`RunScript`), returning the
execution error immediately on failure.  The engine is the external
collaborator, passed as `exec` acting on an abstract database state. -/
def runSqlFiles {σ : Type} (fs : MigFS) (exec : σ → GoStr → σ × Option GoError) :
    List GoStr → σ → σ × Option GoError
  | [], db => (db, none)
  | f :: rest, db =>
      match fs.readFile f with
      | .error e => (db, some e)
      | .ok content =>
          match exec db content with
          | (db2, some e) => (db2, some e)
          | (db2, none) => runSqlFiles fs exec rest db2

/-- Migration embeds `Migration` of migration.go end to end: collect,
filter and sort the script files, then read and execute each in order,
stopping at the first failure. -/
def Migration {σ : Type} (fs : MigFS) (exec : σ → GoStr → σ × Option GoError)
    (dir : GoStr) (db : σ) : σ × Option GoError :=
  match migrationFiles fs dir with
  | .error e => (db, some e)
  | .ok l => runSqlFiles fs exec l db

/-- logExec is a transparent engine instance used to observe which
scripts a Migration run executes: the database state is the list of
script bodies executed so far, and every script succeeds. -/
def logExec (db : List GoStr) (s : GoStr) : List GoStr × Option GoError :=
  (db ++ [s], none)

/-- failExec is an engine instance on which every script fails. -/
def failExec (db : List GoStr) (_ : GoStr) : List GoStr × Option GoError :=
  (db, some .execFailed)

/-- ConnM models the Conn wrapper struct: the underlying engine handle
(identified by a number) and the statement cache, an association from
SQL text to prepared-statement handles (identified by numbers).  The
cache is kept as an insertion-ordered list of entries. -/
structure ConnM where
  handle : Nat
  stmts : List (GoStr × Nat)
  deriving DecidableEq, Repr

/-- databaseConn embeds `Database.Conn` (src/unnamed/part_001): take a
raw handle from the pool and wrap it in a fresh Conn whose statement
cache is newly allocated and empty (`stmts: make(map[string]*Stmt)`).
An empty pool means `pool.Take` blocks, modelled as `none`. -/
def databaseConn : List Nat → Option (ConnM × List Nat)
  | [] => none
  | h :: rest => some ({ handle := h, stmts := [] }, rest)

/-- databasePut embeds `Database.put`: only the raw engine handle is
returned to the pool; the wrapper and its statement cache are dropped. -/
def databasePut (c : ConnM) (pool : List Nat) : List Nat :=
  pool ++ [c.handle]

/-- prepareCache embeds the head of Conn.Prepare (conn.go): the trimmed
SQL is always prepared through the engine handle (`c.conn.Prepare(sql)`,
the wrapper never consults its own cache first) and the resulting
statement is stored into the cache.  The Bool records that the engine
prepare call was made. -/
def prepareCache (c : ConnM) (sql : GoStr) (sid : Nat) : ConnM × Bool :=
  ({ handle := c.handle, stmts := c.stmts ++ [(sql, sid)] }, true)

/-- World models the state shared between a Conn and its surroundings:
the pool of available raw handles, the set of engine handles not yet
closed, and the set of prepared statements not yet finalized. -/
structure World where
  pool : List Nat
  openHandles : List Nat
  liveStmts : List Nat
  deriving DecidableEq, Repr

/-- finalizeStmt models `stmt.Finalize()` succeeding on the engine: the
statement is no longer live.  Nothing else changes. -/
def finalizeStmt (w : World) (sid : Nat) : World :=
  { w with liveStmts := w.liveStmts.filter (fun x => x != sid) }

/-- doneV1 embeds `Conn.Done` of the first conn.go variant (conn.go
lines 31-34): `c.put(c)` — the connection goes back to the pool and
nothing else happens. -/
def doneV1 (w : World) (c : ConnM) : World :=
  { w with pool := w.pool ++ [c.handle] }

/-- doneV2Loop embeds the `for _, stmt := range c.stmts` loop of the
second `Conn.Done` variant: finalize each cached statement, returning
the first finalize error immediately.  `fin` gives the engine's outcome
for finalizing each statement.  Go iterates the map in unspecified
order; this model fixes the cache's insertion order, which only affects
which error is returned when several finalizes would fail. -/
def doneV2Loop (fin : Nat → Option GoError) (w : World) :
    List (GoStr × Nat) → World × Option GoError
  | [] => (w, none)
  | p :: rest =>
      match fin p.2 with
      | some e => (w, some e)
      | none => doneV2Loop fin (finalizeStmt w p.2) rest

/-- doneV2 embeds `Conn.Done` of the second conn.go variant (conn.go
lines 200-209): finalize every cached statement (stopping at the first
error, in which case the handle is not returned), then `c.put(c.conn)`. -/
def doneV2 (fin : Nat → Option GoError) (w : World) (c : ConnM) :
    World × Option GoError :=
  match doneV2Loop fin w c.stmts with
  | (w2, some e) => (w2, some e)
  | (w2, none) => ({ w2 with pool := w2.pool ++ [c.handle] }, none)

/-- finOk is the engine outcome in which every finalize succeeds. -/
def finOk : Nat → Option GoError := fun _ => none

/-- warmupLoop embeds the loop of Conn.Warmup: prepare each SQL through
the engine (`prep` gives the engine's outcome as the new statement
handle, or a failure), stopping at the first prepare error; prepared
statements accumulate into the fresh cache. -/
def warmupLoop (prep : GoStr → Option Nat) :
    List GoStr → List (GoStr × Nat) → List (GoStr × Nat) × Option GoError
  | [], acc => (acc, none)
  | s :: rest, acc =>
      match prep s with
      | none => (acc, some .prepareFailed)
      | some sid => warmupLoop prep rest (acc ++ [(s, sid)])

/-- Warmup embeds `Conn.Warmup` (conn.go): if the statement cache is
nonempty (`len(c.stmts) > 0`) fail with the "connection has already
warmed up" error; if no SQL is given return nil without touching the
cache; otherwise allocate a fresh cache and fill it. -/
def Warmup (prep : GoStr → Option Nat) (stmts : List (GoStr × Nat))
    (sqls : List GoStr) : List (GoStr × Nat) × Option GoError :=
  if stmts.length > 0 then (stmts, some .alreadyWarmedUp)
  else if sqls.length = 0 then (stmts, none)
  else warmupLoop prep sqls []

/-- PoolM models the sqlitex.Pool as the worker sees it: whether it has
been closed, and the available raw handles. -/
structure PoolM where
  closed : Bool
  avail : List Nat
  deriving DecidableEq, Repr

/-- TakeResult models the outcome of `pool.Take(ctx)` under a
background context: an error if the pool is closed, otherwise a handle
when one is available; with no handle available the call blocks
(`blocked`) until one is put back. -/
inductive TakeResult where
  | tookConn (h : Nat) (p : PoolM)
  | errClosed
  | blocked
  deriving DecidableEq, Repr

/-- poolTake embeds `db.pool.Take(context.Background())` as called via
`db.Conn` from the worker loop. -/
def poolTake (p : PoolM) : TakeResult :=
  if p.closed then .errClosed
  else
    match p.avail with
    | [] => .blocked
    | h :: rest => .tookConn h { closed := p.closed, avail := rest }

/-- poolPut embeds returning a raw handle to the pool. -/
def poolPut (p : PoolM) (h : Nat) : PoolM :=
  { p with avail := p.avail ++ [h] }

/-- workerStep embeds the body of the worker loop in NewWorker
(worker.go) for one dequeued task: `conn, err := w.db.Conn(ctx); if err
!= nil { return }` — on a lease error the closure returns without
touching the task, firing no completion signal; otherwise the task's
function runs against the connection, one completion signal is sent on
the task's channel, and the deferred `conn.Close()` returns the handle
to the pool.  The result pairs the new pool state with the number of
completion signals fired for this task.  A blocked Take never returns,
so no signal fires in that case either. -/
def workerStep (p : PoolM) : PoolM × Nat :=
  match poolTake p with
  | .errClosed => (p, 0)
  | .blocked => (p, 0)
  | .tookConn h p2 => (poolPut p2 h, 1)

/-- structJson is the JSON text of the test struct used by the repo's
own TestAddingStructToJson. -/
def structJson : GoStr := "\x7b\"name\":\"test\",\"age\":10\x7d".toList

/-- C2: the spec's rule 10 ("a structured record type or a pointer to
one, not a time instant and not a Stringer, is serialized to JSON text
and bound as TEXT, checked after the time rule") is absent from the
binder under src: a struct or pointer-to-struct parameter falls through
the kind switch and the type switch to the `default:` arm and Prepare
fails with ErrUnknownType, while a time instant is indeed bound as an
INTEGER of Unix epoch seconds.  The repo's own tests
(TestAddingStructToJson, TestAddingPointerStructToJson) assert that the
struct bind succeeds, so the code contradicts its own tests. -/
theorem struct_param_hits_unknown_type_bug :
    bindValue (GoValue.goStructVal structJson) = Except.error GoError.unknownType ∧
    bindValue (GoValue.goPtrStructVal structJson) = Except.error GoError.unknownType ∧
    bindValue (GoValue.goTime 1700000000) = Except.ok [BindOp.bindInt64 1700000000] ∧
    prepareBinds [GoValue.goStructVal structJson] = ([], some GoError.unknownType) :=
  ⟨rfl, rfl, rfl, rfl⟩

/-- C7: binding an unsigned integer parameter binds a 64-bit INTEGER
equal to the value reinterpreted as signed two's-complement 64 bits
(the value modulo 2^64 read as int64): it is congruent to the original
modulo 2^64, equals the original at or below 2^63 - 1, and is negative
above 2^63 - 1. -/
theorem uint_binds_twos_complement (u : Nat) (h : u < 2 ^ 64) :
    bindValue (GoValue.goUint u) = Except.ok [BindOp.bindInt64 (goUintToInt64 u)] ∧
    goUintToInt64 u % 2 ^ 64 = (u : Int) % 2 ^ 64 ∧
    (u ≤ 2 ^ 63 - 1 → goUintToInt64 u = (u : Int)) ∧
    (2 ^ 63 - 1 < u → goUintToInt64 u < 0) := by
  have hm : u % 2 ^ 64 = u := Nat.mod_eq_of_lt h
  refine ⟨rfl, ?_, ?_, ?_⟩
  · unfold goUintToInt64
    rw [hm]
    split_ifs with hlt
    · rfl
    · omega
  · intro hle
    unfold goUintToInt64
    rw [hm]
    split_ifs with hlt
    · rfl
    · omega
  · intro hgt
    unfold goUintToInt64
    rw [hm]
    split_ifs with hlt
    · omega
    · push_cast
      omega

/-- Witness for C7 at the largest uint64 and at 3. -/
theorem uint_binds_twos_complement_witness :
    goUintToInt64 (2 ^ 64 - 1) < 0 ∧ goUintToInt64 3 = (3 : Int) := by
  constructor
  · exact (uint_binds_twos_complement (2 ^ 64 - 1) (by norm_num)).2.2.2 (by norm_num)
  · exact (uint_binds_twos_complement 3 (by norm_num)).2.2.1 (by norm_num)

/-- prepAll is an engine instance on which every prepare succeeds,
returning statement handle 0. -/
def prepAll : GoStr → Option Nat := fun _ => some 0

/-- Counterexample for C5: two successive calls to Warmup with an empty
statement list both succeed — the second call does not fail with the
"already warmed up" error, because the guard only checks that the
statement cache is nonempty and an empty first call caches nothing. -/
theorem warmup_twice_no_error_cex :
    Warmup prepAll [] [] = ([], none) ∧
    Warmup prepAll (Warmup prepAll [] []).1 [] = ([], none) :=
  ⟨rfl, rfl⟩

theorem warmupLoop_all_ok (prep : GoStr → Option Nat) :
    ∀ (sqls : List GoStr) (acc : List (GoStr × Nat)),
    (∀ s ∈ sqls, prep s ≠ none) →
    (warmupLoop prep sqls acc).2 = none ∧
    (warmupLoop prep sqls acc).1.length = acc.length + sqls.length := by
  intro sqls
  induction sqls with
  | nil => intro acc _; simp [warmupLoop]
  | cons s rest ih =>
    intro acc hok
    have hs : prep s ≠ none := hok s (by simp)
    obtain ⟨sid, hsid⟩ := Option.ne_none_iff_exists'.mp hs
    simp only [warmupLoop, hsid]
    have h2 := ih (acc ++ [(s, sid)]) (fun t ht => hok t (by simp [ht]))
    refine ⟨h2.1, ?_⟩
    rw [h2.2]
    simp
    omega

/-- C5 amended: a call to Warmup fails with the "already warmed up"
error exactly when the statement cache is already nonempty; a first
call with a nonempty list of statements (all of which prepare) caches
them and arms the guard, so a second call then fails; but a first call
with an empty list caches nothing, succeeds, and leaves a later call
able to succeed again. -/
theorem warmup_guard_is_cache_nonempty (prep : GoStr → Option Nat)
    (stmts : List (GoStr × Nat)) (sqls sqls2 : List GoStr)
    (hne : stmts ≠ []) (hsq : sqls ≠ []) (hok : ∀ s ∈ sqls, prep s ≠ none) :
    Warmup prep stmts sqls2 = (stmts, some GoError.alreadyWarmedUp) ∧
    (Warmup prep [] sqls).2 = none ∧
    (Warmup prep [] sqls).1 ≠ [] ∧
    (Warmup prep (Warmup prep [] sqls).1 sqls2).2 = some GoError.alreadyWarmedUp ∧
    Warmup prep [] [] = ([], none) := by
  have hpos : stmts.length > 0 := List.length_pos.mpr hne
  have hspos : sqls.length ≠ 0 := by
    simpa using List.length_pos.mpr hsq |>.ne'
  have hloop := warmupLoop_all_ok prep sqls [] hok
  have warmErr : ∀ (st : List (GoStr × Nat)) (sq : List GoStr), st.length > 0 →
      Warmup prep st sq = (st, some GoError.alreadyWarmedUp) := by
    intro st sq hstl
    simp [Warmup, hstl]
  have hfirst : Warmup prep [] sqls = warmupLoop prep sqls [] := by
    simp [Warmup, hspos]
  have hlen : (Warmup prep [] sqls).1.length = sqls.length := by
    rw [hfirst, hloop.2]
    simp
  refine ⟨warmErr stmts sqls2 hpos, ?_, ?_, ?_, rfl⟩
  · rw [hfirst]; exact hloop.1
  · intro hcon
    rw [hcon] at hlen
    simp at hlen
    exact hsq (List.length_eq_zero.mp hlen.symm)
  · have hlen2 : (Warmup prep [] sqls).1.length > 0 := by
      rw [hlen]
      exact List.length_pos.mpr hsq
    rw [warmErr _ _ hlen2]

/-- Witness for C5 amended at concrete inputs. -/
theorem warmup_guard_witness :
    Warmup prepAll [(['a'], 0)] [] = ([(['a'], 0)], some GoError.alreadyWarmedUp) ∧
    (Warmup prepAll [] [['s']]).2 = none ∧
    (Warmup prepAll [] [['s']]).1 ≠ [] ∧
    (Warmup prepAll (Warmup prepAll [] [['s']]).1 []).2 = some GoError.alreadyWarmedUp ∧
    Warmup prepAll [] [] = ([], none) :=
  warmup_guard_is_cache_nonempty prepAll [(['a'], 0)] [['s']] [] (by decide)
    (by decide) (by intro s _; simp [prepAll])

theorem doneV2Loop_finOk (stmts : List (GoStr × Nat)) : ∀ w : World,
    doneV2Loop finOk w stmts
      = ({ w with liveStmts := w.liveStmts.filter (fun x => !(stmts.map Prod.snd).contains x) }, none) := by
  induction stmts with
  | nil => intro w; simp [doneV2Loop]
  | cons p rest ih =>
    intro w
    simp only [doneV2Loop, finOk]
    rw [ih]
    simp only [finalizeStmt, List.filter_filter, List.map_cons]
    have hbody : ∀ x : Nat, (!(List.map Prod.snd rest).contains x && x != p.2)
        = !((p.2 :: List.map Prod.snd rest).contains x) := by
      intro x
      by_cases hx : x = p.2
      · simp [hx]
      · simp [hx, Bool.and_comm, bne]
    simp only [hbody]

/-- Counterexample for C4: in the conn.go variant at lines 200-209,
Done does finalize the Connection's cached statements: with one cached
statement (id 5) live before the call, no statement is live after it. -/
theorem done_finalizes_cache_cex :
    5 ∈ (World.mk [] [7] [5]).liveStmts ∧
    (doneV2 finOk (World.mk [] [7] [5]) (ConnM.mk 7 [(['S'], 5)])).1.liveStmts = [] ∧
    (doneV2 finOk (World.mk [] [7] [5]) (ConnM.mk 7 [(['S'], 5)])).1.openHandles = [7] ∧
    (doneV2 finOk (World.mk [] [7] [5]) (ConnM.mk 7 [(['S'], 5)])).1.pool = [7] := by
  decide

/-- C4 amended: Done returns the underlying engine handle to the pool
and never closes the handle, in both variants; the first variant
(conn.go lines 31-34) changes nothing else, while the second variant
(conn.go lines 200-209) additionally finalizes every statement in the
Connection's cache before returning the handle. -/
theorem done_variants (w : World) (c : ConnM) :
    doneV1 w c = { pool := w.pool ++ [c.handle], openHandles := w.openHandles,
                   liveStmts := w.liveStmts } ∧
    (doneV2 finOk w c).2 = none ∧
    (doneV2 finOk w c).1.openHandles = w.openHandles ∧
    (doneV2 finOk w c).1.pool = w.pool ++ [c.handle] ∧
    (doneV2 finOk w c).1.liveStmts
      = w.liveStmts.filter (fun x => !(c.stmts.map Prod.snd).contains x) := by
  refine ⟨rfl, ?_, ?_, ?_, ?_⟩ <;>
    simp [doneV2, doneV2Loop_finOk]

/-- Counterexample for C3: a worker that dequeues a task while the pool
is closed gets a lease error and returns without firing the task's
completion signal — zero signals fire, not exactly one. -/
theorem worker_drops_task_on_lease_error_cex :
    workerStep (PoolM.mk true [0]) = (PoolM.mk true [0], 0) ∧ (0 : Nat) ≠ 1 := by
  decide

/-- C3 amended: for every dequeued task whose connection lease
succeeds, the worker runs the task, returns the handle to the pool, and
fires the task's completion signal exactly once (so Submit returns for
that task); when the lease fails the task is dropped with no signal. -/
theorem worker_completes_on_lease_success (p p2 : PoolM) (h : Nat)
    (htake : poolTake p = TakeResult.tookConn h p2) :
    workerStep p = (poolPut p2 h, 1) ∧ h ∈ (workerStep p).1.avail := by
  refine ⟨?_, ?_⟩ <;> simp [workerStep, htake, poolPut]

/-- Witness for C3 amended at a one-handle open pool. -/
theorem worker_completes_witness :
    workerStep (PoolM.mk false [3]) = (poolPut (PoolM.mk false []) 3, 1) ∧
    3 ∈ (workerStep (PoolM.mk false [3])).1.avail :=
  worker_completes_on_lease_success (PoolM.mk false [3]) (PoolM.mk false []) 3 rfl

/-- C10: every Conn returned by Database.Conn carries a freshly
allocated, empty statement cache; putting a connection back surrenders
only the raw handle, so a later lease of the same physical handle again
starts with an empty cache (statements cached during an earlier lease
are not visible); and Prepare on a Conn always performs the engine
prepare call, so a repeated lease re-prepares the same SQL text. -/
theorem conn_cache_per_lease (pool : List Nat) (c : ConnM) (rest : List Nat)
    (h : databaseConn pool = some (c, rest)) :
    c.stmts = [] ∧
    (∀ c1 : ConnM, databaseConn (databasePut c1 [])
        = some ({ handle := c1.handle, stmts := [] }, [])) ∧
    (∀ sql sid, (prepareCache c sql sid).2 = true) := by
  cases pool with
  | nil => simp [databaseConn] at h
  | cons hd tl =>
    simp only [databaseConn, Option.some.injEq, Prod.mk.injEq] at h
    refine ⟨?_, ?_, ?_⟩
    · rw [← h.1]
    · intro c1
      simp [databaseConn, databasePut]
    · intro sql sid
      rfl

/-- Witness for C10 at a one-handle pool. -/
theorem conn_cache_per_lease_witness :
    (ConnM.mk 5 []).stmts = ([] : List (GoStr × Nat)) ∧
    (∀ c1 : ConnM, databaseConn (databasePut c1 [])
        = some ({ handle := c1.handle, stmts := [] }, [])) ∧
    (∀ sql sid, (prepareCache (ConnM.mk 5 []) sql sid).2 = true) :=
  conn_cache_per_lease [5] (ConnM.mk 5 []) [] rfl

theorem bindValue_ok_of_ruled (v : GoValue) (h : matchesNoRule v = false) :
    ∃ ops, bindValue v = Except.ok ops := by
  cases v <;> first
    | exact ⟨_, rfl⟩
    | simp [matchesNoRule] at h

theorem bindValue_err_of_noRule (v : GoValue) (h : matchesNoRule v = true) :
    bindValue v = Except.error GoError.unknownType := by
  cases v <;> first
    | rfl
    | simp [matchesNoRule] at h

theorem bindLoop_stops_at_noRule (post : List GoValue) (u : GoValue)
    (hu : matchesNoRule u = true) :
    ∀ (pre : List GoValue) (i : Nat), (∀ v ∈ pre, matchesNoRule v = false) →
    (bindLoop i (pre ++ u :: post)).2 = some GoError.unknownType ∧
    (∀ q ∈ (bindLoop i (pre ++ u :: post)).1, q.1 < i + pre.length) := by
  intro pre
  induction pre with
  | nil =>
    intro i _
    simp [bindLoop, bindValue_err_of_noRule u hu]
  | cons v rest ih =>
    intro i hok
    obtain ⟨ops, hops⟩ := bindValue_ok_of_ruled v (hok v (by simp))
    have h2 := ih (i + 1) (fun t ht => hok t (by simp [ht]))
    simp only [List.cons_append, bindLoop, hops]
    refine ⟨h2.1, ?_⟩
    intro q hq
    simp only [List.mem_append, List.mem_map] at hq
    rcases hq with ⟨op, _, hqeq⟩ | hq
    · rw [← hqeq]
      simp
    · have := h2.2 q hq
      simp at this ⊢
      omega

/-- C8: for every parameter whose dynamic type matches none of the
binder's dispatch rules (a channel or function value, and — in the
code as written — a plain struct), Prepare's binding loop fails with
the UnknownParameterType error and performs no bind call for that
parameter or any later one; when such a value is the first parameter,
nothing at all is bound. -/
theorem unknown_type_binds_nothing (pre post : List GoValue) (u : GoValue)
    (hu : matchesNoRule u = true) (hpre : ∀ v ∈ pre, matchesNoRule v = false) :
    (prepareBinds (pre ++ u :: post)).2 = some GoError.unknownType ∧
    (∀ q ∈ (prepareBinds (pre ++ u :: post)).1, q.1 < 1 + pre.length) ∧
    prepareBinds (u :: post) = ([], some GoError.unknownType) := by
  have h := bindLoop_stops_at_noRule post u hu pre 1 hpre
  refine ⟨h.1, h.2, ?_⟩
  simp [prepareBinds, bindLoop, bindValue_err_of_noRule u hu]

/-- Witness for C8: a channel value after one supported parameter. -/
theorem unknown_type_binds_nothing_witness :
    (prepareBinds [GoValue.goString ['x'], GoValue.goChan, GoValue.goInt 5]).2
        = some GoError.unknownType ∧
    (∀ q ∈ (prepareBinds [GoValue.goString ['x'], GoValue.goChan, GoValue.goInt 5]).1,
        q.1 < 1 + 1) ∧
    prepareBinds [GoValue.goChan, GoValue.goInt 5] = ([], some GoError.unknownType) := by
  have h := unknown_type_binds_nothing [GoValue.goString ['x']] [GoValue.goInt 5]
      GoValue.goChan (by decide) (by decide)
  simpa using h

/-- sepFold is the common shape of both builder loops in helper.go: n
copies of a piece, each but the first preceded by ", ", appended to the
builder. -/
def sepFold (piece : String) (n : Nat) (sb : String) : String :=
  (List.range n).foldl (fun sb i => sb ++ (if i > 0 then ", " else "") ++ piece) sb

/-- sepBlocks is n copies of ", " followed by the piece. -/
def sepBlocks (piece : String) : Nat → String
  | 0 => ""
  | n + 1 => (", " ++ piece) ++ sepBlocks piece n

theorem sepFold_succ (piece : String) (n : Nat) (sb : String) :
    sepFold piece (n + 1) sb
      = sepFold piece n sb ++ (if n > 0 then ", " else "") ++ piece := by
  unfold sepFold
  rw [List.range_succ, List.foldl_append]
  rfl

theorem sepBlocks_succ_end (piece : String) : ∀ n,
    sepBlocks piece (n + 1) = sepBlocks piece n ++ (", " ++ piece) := by
  intro n
  induction n with
  | zero => simp [sepBlocks]
  | succ m ih =>
    have h2 : sepBlocks piece (m + 1 + 1)
        = (", " ++ piece) ++ (sepBlocks piece m ++ (", " ++ piece)) := by
      rw [show sepBlocks piece (m + 1 + 1)
            = (", " ++ piece) ++ sepBlocks piece (m + 1) from rfl, ih]
    rw [h2, ← String.append_assoc]
    rw [show sepBlocks piece (m + 1) = (", " ++ piece) ++ sepBlocks piece m from rfl]

theorem intercalate_go_replicate (piece : String) : ∀ (n : Nat) (acc : String),
    String.intercalate.go acc ", " (List.replicate n piece) = acc ++ sepBlocks piece n := by
  intro n
  induction n with
  | zero => intro acc; simp [sepBlocks, String.intercalate.go]
  | succ m ih =>
    intro acc
    rw [List.replicate_succ]
    rw [show String.intercalate.go acc ", " (piece :: List.replicate m piece)
          = String.intercalate.go (acc ++ ", " ++ piece) ", " (List.replicate m piece) from rfl]
    rw [ih (acc ++ ", " ++ piece)]
    simp [sepBlocks, String.append_assoc]

theorem intercalate_replicate_succ (piece : String) (n : Nat) :
    String.intercalate ", " (List.replicate (n + 1) piece)
      = String.intercalate ", " (List.replicate n piece)
          ++ (if n > 0 then ", " else "") ++ piece := by
  cases n with
  | zero => simp [String.intercalate, String.intercalate.go]
  | succ m =>
    rw [show String.intercalate ", " (List.replicate (m + 1 + 1) piece)
          = String.intercalate.go piece ", " (List.replicate (m + 1) piece) from rfl]
    rw [show String.intercalate ", " (List.replicate (m + 1) piece)
          = String.intercalate.go piece ", " (List.replicate m piece) from rfl]
    rw [intercalate_go_replicate, intercalate_go_replicate, sepBlocks_succ_end]
    simp [String.append_assoc]

theorem sepFold_eq_intercalate (piece : String) : ∀ n : Nat,
    sepFold piece n "" = String.intercalate ", " (List.replicate n piece) := by
  intro n
  induction n with
  | zero => rfl
  | succ m ih =>
    rw [sepFold_succ, ih, intercalate_replicate_succ]

theorem placeholdersAux_eq_sepFold (n : Nat) (sb : String) :
    placeholdersAux n sb = sepFold "?" n sb := rfl

theorem sepFold_out (piece : String) : ∀ (n : Nat) (sb : String),
    sepFold piece n sb = sb ++ sepFold piece n "" := by
  intro n
  induction n with
  | zero => intro sb; simp [sepFold]
  | succ m ih =>
    intro sb
    rw [sepFold_succ, sepFold_succ, ih sb]
    simp [String.append_assoc]

theorem groupBuilder_eq_sepFold (numCols : Nat) : ∀ (numRows : Nat) (sb : String),
    GroupPlaceholdersStringBuilder numRows numCols sb
      = sepFold ("(" ++ Placeholders numCols ++ ")") numRows sb := by
  intro numRows
  induction numRows with
  | zero => intro sb; rfl
  | succ m ih =>
    intro sb
    unfold GroupPlaceholdersStringBuilder
    rw [List.range_succ, List.foldl_append]
    have hstep : ∀ s : String,
        placeholdersAux numCols (s ++ (if m > 0 then ", " else "") ++ "(") ++ ")"
          = s ++ (if m > 0 then ", " else "") ++ ("(" ++ Placeholders numCols ++ ")") := by
      intro s
      rw [placeholdersAux_eq_sepFold, sepFold_out]
      show s ++ (if m > 0 then ", " else "") ++ "(" ++ Placeholders numCols ++ ")"
        = s ++ (if m > 0 then ", " else "") ++ ("(" ++ Placeholders numCols ++ ")")
      simp [String.append_assoc]
    show placeholdersAux numCols
        ((List.range m).foldl _ sb ++ (if m > 0 then ", " else "") ++ "(") ++ ")"
      = sepFold ("(" ++ Placeholders numCols ++ ")") (m + 1) sb
    rw [hstep, sepFold_succ, ← ih sb]
    rfl

/-- C9: Placeholders 0 is the empty string, Placeholders 3 is
"?, ?, ?", GroupPlaceholders 2 3 is "(?, ?, ?), (?, ?, ?)"; in general
Placeholders n is n "?" tokens joined by ", ", and GroupPlaceholders
r c is r parenthesized copies of Placeholders c joined by ", ". -/
theorem placeholders_shape :
    Placeholders 0 = "" ∧
    Placeholders 3 = "?, ?, ?" ∧
    GroupPlaceholders 2 3 = "(?, ?, ?), (?, ?, ?)" ∧
    (∀ n : Nat, Placeholders n = String.intercalate ", " (List.replicate n "?")) ∧
    (∀ r c : Nat, GroupPlaceholders r c
        = String.intercalate ", " (List.replicate r ("(" ++ Placeholders c ++ ")"))) := by
  refine ⟨rfl, rfl, rfl, ?_, ?_⟩
  · intro n
    rw [show Placeholders n = sepFold "?" n "" from rfl, sepFold_eq_intercalate]
  · intro r c
    rw [show GroupPlaceholders r c = GroupPlaceholdersStringBuilder r c "" from rfl]
    rw [groupBuilder_eq_sepFold, sepFold_eq_intercalate]

theorem runSqlFiles_append {σ : Type} (fs : MigFS) (exec : σ → GoStr → σ × Option GoError) :
    ∀ (l1 l2 : List GoStr) (db : σ),
    runSqlFiles fs exec (l1 ++ l2) db
      = (match runSqlFiles fs exec l1 db with
         | (db1, none) => runSqlFiles fs exec l2 db1
         | (db1, some e) => (db1, some e)) := by
  intro l1
  induction l1 with
  | nil => intro l2 db; simp [runSqlFiles]
  | cons f rest ih =>
    intro l2 db
    simp only [List.cons_append, runSqlFiles]
    rcases hrf : fs.readFile f with e | content
    · simp
    · simp only []
      rcases hex : exec db content with ⟨db2, r⟩
      cases r with
      | none => simp [hex, ih l2 db2]
      | some e => simp [hex]

/-- C6: with the directory read succeeding, the list of script files
the sequencer will run is exactly the lexicographically sorted joined
names of the non-directory entries whose extension is ".sql" (so
directories and other extensions are skipped, and scripts run in sorted
order: the run itself processes that list front to back), and the run
stops at the first script whose read or execution fails, returning that
error without touching any later script. -/
theorem migration_order_and_stop {σ : Type} (fs : MigFS) (dir : GoStr) :
    (∀ (files : List GoDirEntry) (l : List GoStr),
        fs.entries = Except.ok files → migrationFiles fs dir = Except.ok l →
        l = sortStrings ((files.filter keepEntry).map (fun f => joinPath dir f.name)) ∧
        List.Sorted strLe l ∧
        l.Perm ((files.filter keepEntry).map (fun f => joinPath dir f.name))) ∧
    (∀ (exec : σ → GoStr → σ × Option GoError) (l : List GoStr) (db : σ),
        migrationFiles fs dir = Except.ok l →
        Migration fs exec dir db = runSqlFiles fs exec l db) ∧
    (∀ (exec : σ → GoStr → σ × Option GoError) (l1 : List GoStr) (f : GoStr)
        (l2 : List GoStr) (db db1 : σ) (e : GoError),
        runSqlFiles fs exec l1 db = (db1, none) → fs.readFile f = Except.error e →
        runSqlFiles fs exec (l1 ++ f :: l2) db = (db1, some e)) ∧
    (∀ (exec : σ → GoStr → σ × Option GoError) (l1 : List GoStr) (f : GoStr)
        (l2 : List GoStr) (db db1 db2 : σ) (e : GoError) (content : GoStr),
        runSqlFiles fs exec l1 db = (db1, none) → fs.readFile f = Except.ok content →
        exec db1 content = (db2, some e) →
        runSqlFiles fs exec (l1 ++ f :: l2) db = (db2, some e)) := by
  refine ⟨?_, ?_, ?_, ?_⟩
  · intro files l hfe hmf
    unfold migrationFiles at hmf
    rw [hfe] at hmf
    simp only [Except.ok.injEq] at hmf
    subst hmf
    refine ⟨rfl, ?_, ?_⟩
    · exact List.sorted_insertionSort strLe _
    · exact List.perm_insertionSort strLe _
  · intro exec l db hmf
    unfold Migration
    rw [hmf]
  · intro exec l1 f l2 db db1 e h1 hrf
    rw [runSqlFiles_append, h1]
    simp only [runSqlFiles, hrf]
  · intro exec l1 f l2 db db1 db2 e content h1 hrf hex
    rw [runSqlFiles_append, h1]
    simp only [runSqlFiles, hrf, hex]

/-- files6 is a concrete four-entry directory listing: an out-of-order
".sql" file, a subdirectory, a ".txt" file, and another ".sql" file. -/
def files6 : List GoDirEntry :=
  [GoDirEntry.mk "b.sql".toList false, GoDirEntry.mk "sub".toList true,
    GoDirEntry.mk "a.txt".toList false, GoDirEntry.mk "a.sql".toList false]

/-- fs6 is the filesystem serving files6. -/
def fs6 : MigFS where
  entries := Except.ok files6
  readFile := fun f =>
    if f = "d/a.sql".toList then Except.ok "A".toList
    else if f = "d/b.sql".toList then Except.ok "B".toList
    else Except.error (GoError.ioErr "missing".toList)

/-- Witness for C6 on fs6: the subdirectory and the ".txt" file are
dropped, the two ".sql" files run in sorted order, a failing read after
a successful script aborts with that read error, and a failing
execution aborts with the execution error. -/
theorem migration_order_and_stop_witness :
    ["d/a.sql".toList, "d/b.sql".toList]
      = sortStrings ((files6.filter keepEntry).map (fun f => joinPath "d".toList f.name)) ∧
    List.Sorted strLe ["d/a.sql".toList, "d/b.sql".toList] ∧
    Migration fs6 logExec "d".toList []
      = runSqlFiles fs6 logExec ["d/a.sql".toList, "d/b.sql".toList] [] ∧
    runSqlFiles fs6 logExec (["d/a.sql".toList] ++ "d/zzz.sql".toList :: []) []
      = (["A".toList], some (GoError.ioErr "missing".toList)) ∧
    runSqlFiles fs6 failExec ([] ++ "d/a.sql".toList :: []) []
      = ([], some GoError.execFailed) := by
  have h := migration_order_and_stop (σ := List GoStr) fs6 "d".toList
  have h1 := h.1 files6 ["d/a.sql".toList, "d/b.sql".toList] rfl rfl
  refine ⟨h1.1, h1.2.1, ?_, ?_, ?_⟩
  · exact h.2.1 logExec ["d/a.sql".toList, "d/b.sql".toList] [] rfl
  · exact h.2.2.1 logExec ["d/a.sql".toList] "d/zzz.sql".toList [] [] ["A".toList]
      (GoError.ioErr "missing".toList) (by decide) rfl
  · exact h.2.2.2 failExec [] "d/a.sql".toList [] [] [] [] GoError.execFailed "A".toList
      rfl rfl rfl

theorem runSqlFiles_log (fs : MigFS) : ∀ l : List GoStr,
    (∀ f ∈ l, ∃ c, fs.readFile f = Except.ok c) →
    ∃ cs : List GoStr,
      (∀ db : List GoStr, runSqlFiles fs logExec l db = (db ++ cs, none)) ∧
      cs.length = l.length := by
  intro l
  induction l with
  | nil => intro _; exact ⟨[], fun db => by simp [runSqlFiles], rfl⟩
  | cons f rest ih =>
    intro hr
    obtain ⟨c, hc⟩ := hr f (by simp)
    obtain ⟨cs, hcs, hlen⟩ := ih (fun t ht => hr t (by simp [ht]))
    refine ⟨c :: cs, ?_, by simp [hlen]⟩
    intro db
    simp only [runSqlFiles, hc, logExec]
    rw [hcs (db ++ [c])]
    simp

/-- C1 amended: the sequencer keeps no record of applied scripts (there
is no bookkeeping table): every run applies every ".sql" script of the
directory in sorted order, so running the sequencer a second time over
the same unchanged script set applies every script a second time, and
the database state advances on every run.  The logging engine makes the
re-application observable: the first run appends one entry per script
and the second run appends the same entries again. -/
theorem migration_reapplies_every_script (fs : MigFS) (dir : GoStr) (l : List GoStr)
    (hl : migrationFiles fs dir = Except.ok l)
    (hr : ∀ f ∈ l, ∃ c, fs.readFile f = Except.ok c) :
    ∃ cs : List GoStr,
      Migration fs logExec dir [] = (cs, none) ∧
      Migration fs logExec dir cs = (cs ++ cs, none) ∧
      cs.length = l.length := by
  obtain ⟨cs, hcs, hlen⟩ := runSqlFiles_log fs l hr
  refine ⟨cs, ?_, ?_, hlen⟩
  · unfold Migration
    rw [hl]
    show runSqlFiles fs logExec l [] = (cs, none)
    rw [hcs []]
    simp
  · unfold Migration
    rw [hl]
    show runSqlFiles fs logExec l cs = (cs ++ cs, none)
    rw [hcs cs]

/-- fs1 is a one-script directory used to exhibit re-application. -/
def fs1 : MigFS where
  entries := Except.ok [GoDirEntry.mk "001.sql".toList false]
  readFile := fun f =>
    if f = "d/001.sql".toList then Except.ok "CREATE".toList
    else Except.error (GoError.ioErr [])

/-- Counterexample for C1: over the unchanged one-script set fs1, the
first sequencer run executes the script once, and the second run
executes it again — the bookkeeping (here the execution log, since the
code durably records nothing at all) does not stay unchanged and the
script is applied a second time. -/
theorem migration_not_idempotent_cex :
    Migration fs1 logExec "d".toList ([] : List GoStr) = (["CREATE".toList], none) ∧
    Migration fs1 logExec "d".toList ["CREATE".toList]
      = (["CREATE".toList, "CREATE".toList], none) ∧
    (["CREATE".toList, "CREATE".toList] : List GoStr) ≠ ["CREATE".toList] := by
  refine ⟨by decide, by decide, by decide⟩

/-- Witness for C1 amended on fs1. -/
theorem migration_reapplies_witness :
    ∃ cs : List GoStr,
      Migration fs1 logExec "d".toList [] = (cs, none) ∧
      Migration fs1 logExec "d".toList cs = (cs ++ cs, none) ∧
      cs.length = (["d/001.sql".toList] : List GoStr).length :=
  migration_reapplies_every_script fs1 "d".toList ["d/001.sql".toList] rfl
    (by
      intro f hf
      simp only [List.mem_singleton] at hf
      subst hf
      exact ⟨"CREATE".toList, rfl⟩)

end EllaSqlite
